import Mathlib

/-!
Verification development for `frvcp_py/labelalgo/core.py`, the label-setting
core of a fixed-route vehicle charging problem solver.  Python floats are
modelled as exact rationals (`Rat`), optional values as `Option`, and code
paths that raise Python exceptions as `Except String` results.
-/

namespace FrvcpCore

/-! ## PseudoFibonacciHeap (core.py lines 28-63)

The Python class keeps `_pq` (a `heapq` binary heap of `[priority, count,
task]` list entries), `_entry_finder` (a dict mapping each tracked task to its
current entry), and `_counter` (an `itertools.count`).  `remove_task` mutates
the shared entry in place (`entry[-1] = self._REMOVED`).

Model: an entry is a record whose `task` field is `none` once the entry has
been turned into a `<removed-task>` tombstone.  Entry counts are issued by the
strictly increasing counter, so they are unique, and `heapq` compares the
`[priority, count, task]` lists lexicographically; hence the heap order is the
total order on `(priority, count)` and the `task` field never decides a
comparison.  A binary heap with totally ordered distinct keys is observed only
through `heappush`/`heappop`, so it is modelled by the sorted sequence of its
entries: `heappush` is ordered insertion and `heappop` removes the head.
The dict is modelled as an association list with distinct keys, tasks as
strings (as in the spec's examples) and priorities as rationals. -/

/-- A heap entry `[priority, count, task]`; `task = none` models the
`<removed-task>` placeholder written by `remove_task`. -/
structure Entry where
  priority : Rat
  count : Nat
  task : Option String
deriving DecidableEq

/-- The order in which `heapq` compares entries: lexicographic on
`(priority, count)`.  Counts are unique, so this is total and the `task`
component of the Python list comparison is never reached. -/
def entryLE (a b : Entry) : Prop :=
  a.priority < b.priority ∨ (a.priority = b.priority ∧ a.count ≤ b.count)

instance : DecidableRel entryLE := fun a b => by
  unfold entryLE; infer_instance

instance : IsTotal Entry entryLE where
  total a b := by
    rcases lt_trichotomy a.priority b.priority with h | h | h
    · exact Or.inl (Or.inl h)
    · rcases Nat.le_total a.count b.count with hc | hc
      · exact Or.inl (Or.inr ⟨h, hc⟩)
      · exact Or.inr (Or.inr ⟨h.symm, hc⟩)
    · exact Or.inr (Or.inl h)

instance : IsTrans Entry entryLE where
  trans a b c hab hbc := by
    rcases hab with h1 | ⟨h1, h1c⟩ <;> rcases hbc with h2 | ⟨h2, h2c⟩
    · exact Or.inl (h1.trans h2)
    · exact Or.inl (h2 ▸ h1)
    · exact Or.inl (h1 ▸ h2)
    · exact Or.inr ⟨h1.trans h2, h1c.trans h2c⟩

theorem entryLE_refl (a : Entry) : entryLE a a := Or.inr ⟨rfl, Nat.le_refl _⟩

theorem entryLE_priority {a b : Entry} (h : entryLE a b) :
    a.priority ≤ b.priority := by
  rcases h with h | ⟨h, _⟩
  · exact le_of_lt h
  · exact le_of_eq h

/-- State of `PseudoFibonacciHeap`: `_pq`, `_entry_finder`, `_counter`. -/
structure PseudoFibonacciHeap where
  pq : List Entry
  entry_finder : List (String × Entry)
  counter : Nat
deriving DecidableEq

/-- `__init__`: empty heap, empty finder, counter at zero. -/
def PseudoFibonacciHeap.init : PseudoFibonacciHeap := ⟨[], [], 0⟩

/-- The in-place mutation `entry[-1] = self._REMOVED` on the entry shared
between `_pq` and `_entry_finder`; the heap copy is identified by its unique
count. -/
def tombF (c : Nat) (e : Entry) : Entry :=
  if e.count = c then { e with task := none } else e

def tombstone (c : Nat) (pq : List Entry) : List Entry :=
  pq.map (tombF c)

/-- `remove_task` (lines 51-54): pop the task from `_entry_finder`
(KeyError if absent) and tombstone its entry. -/
def remove_task (h : PseudoFibonacciHeap) (t : String) :
    Except String PseudoFibonacciHeap :=
  match h.entry_finder.lookup t with
  | none => .error "KeyError"
  | some e =>
      .ok ⟨tombstone e.count h.pq,
           h.entry_finder.filter (fun q => q.1 != t), h.counter⟩

/-- `add_task` (lines 42-49): if the task is tracked, remove it first (this
branch of `remove_task` cannot fail); then push a fresh entry carrying the
next counter value and record it in `_entry_finder`. -/
def add_task (h : PseudoFibonacciHeap) (t : String) (p : Rat) :
    PseudoFibonacciHeap :=
  let h1 : PseudoFibonacciHeap :=
    match h.entry_finder.lookup t with
    | none => h
    | some e =>
        ⟨tombstone e.count h.pq,
         h.entry_finder.filter (fun q => q.1 != t), h.counter⟩
  let e : Entry := ⟨p, h1.counter, some t⟩
  ⟨h1.pq.orderedInsert entryLE e, (t, e) :: h1.entry_finder, h1.counter + 1⟩

/-- The `while self._pq` loop of `pop_task` (lines 56-63): pop the least heap
entry; skip it if it is a tombstone; otherwise `del self._entry_finder[task]`
(a `del` on a missing key would raise KeyError) and return the task.  An
exhausted heap raises the empty-queue KeyError. -/
def popAux : List Entry → List (String × Entry) → Nat →
    Except String (String × PseudoFibonacciHeap)
  | [], _, _ => .error "KeyError: pop from an empty priority queue"
  | e :: rest, f, c =>
      match e.task with
      | none => popAux rest f c
      | some t =>
          match f.lookup t with
          | none => .error "KeyError"
          | some _ => .ok (t, ⟨rest, f.filter (fun q => q.1 != t), c⟩)

/-- `pop_task`, returning the popped task together with the updated state. -/
def pop_task (h : PseudoFibonacciHeap) :
    Except String (String × PseudoFibonacciHeap) :=
  popAux h.pq h.entry_finder h.counter

/-- Heap states reachable from a fresh queue by any finite, successful
sequence of `add_task` / `remove_task` / `pop_task` calls. -/
inductive Reachable : PseudoFibonacciHeap → Prop where
  | init : Reachable .init
  | add {h} (t : String) (p : Rat) :
      Reachable h → Reachable (add_task h t p)
  | remove {h h' t} :
      Reachable h → remove_task h t = .ok h' → Reachable h'
  | pop {h h' t} :
      Reachable h → pop_task h = .ok (t, h') → Reachable h'

/-! ### Association-list (dict) lemmas -/

theorem lookup_mem {α β : Type} [BEq α] [LawfulBEq α]
    {f : List (α × β)} {t : α} {e : β}
    (h : f.lookup t = some e) : (t, e) ∈ f := by
  induction f with
  | nil => simp [List.lookup] at h
  | cons q rest ih =>
    obtain ⟨k, v⟩ := q
    rw [List.lookup] at h
    cases hk : (t == k) with
    | true =>
      rw [hk] at h
      simp only [Option.some.injEq] at h
      exact (eq_of_beq hk) ▸ h ▸ List.mem_cons_self _ _
    | false =>
      rw [hk] at h
      exact List.mem_cons_of_mem _ (ih h)

theorem mem_lookup {α β : Type} [BEq α] [LawfulBEq α]
    {f : List (α × β)} (nd : (f.map Prod.fst).Nodup) {t : α} {e : β}
    (h : (t, e) ∈ f) : f.lookup t = some e := by
  induction f with
  | nil => simp at h
  | cons q rest ih =>
    obtain ⟨k, v⟩ := q
    simp only [List.map_cons, List.nodup_cons] at nd
    rcases List.mem_cons.mp h with h | h
    · rw [List.lookup]
      obtain ⟨h1, h2⟩ := Prod.mk.injEq .. ▸ h
      rw [show (t == k) = true from beq_iff_eq.mpr (by simp [h1])]
      exact congrArg some h2.symm ▸ rfl
    · rw [List.lookup]
      cases hk : (t == k) with
      | true =>
        exact absurd (eq_of_beq hk ▸ (List.mem_map_of_mem Prod.fst h))
          (by simpa using nd.1)
      | false => exact ih nd.2 h

theorem not_mem_keys_of_lookup_none {α β : Type} [BEq α] [LawfulBEq α]
    {f : List (α × β)} {t : α} (h : f.lookup t = none) :
    t ∉ f.map Prod.fst := by
  induction f with
  | nil => simp
  | cons q rest ih =>
    obtain ⟨k, v⟩ := q
    rw [List.lookup] at h
    cases hk : (t == k) with
    | true => rw [hk] at h; exact Option.noConfusion h
    | false =>
      rw [hk] at h
      simp only [List.map_cons, List.mem_cons]
      rintro (h1 | h1)
      · exact absurd (beq_iff_eq.mpr h1) (by simp [hk])
      · exact ih h h1

theorem lookup_filter_self {α β : Type} [BEq α] [LawfulBEq α]
    (f : List (α × β)) (t : α) :
    (f.filter (fun q => q.1 != t)).lookup t = none := by
  induction f with
  | nil => rfl
  | cons q rest ih =>
    obtain ⟨k, v⟩ := q
    rw [List.filter_cons]
    by_cases hk : k = t
    · rw [show ((k, v).1 != t) = false by simp [hk], if_neg (by simp)]
      exact ih
    · rw [if_pos (by simpa using hk), List.lookup,
        show (t == k) = false from beq_eq_false_iff_ne.mpr (Ne.symm hk)]
      exact ih

theorem lookup_filter_other {α β : Type} [BEq α] [LawfulBEq α]
    {f : List (α × β)} {u t : α} (h : u ≠ t) :
    (f.filter (fun q => q.1 != t)).lookup u = f.lookup u := by
  induction f with
  | nil => rfl
  | cons q rest ih =>
    obtain ⟨k, v⟩ := q
    rw [List.filter_cons]
    by_cases hk : k = t
    · rw [show ((k, v).1 != t) = false by simp [hk], if_neg (by simp)]
      rw [ih, List.lookup,
        show (u == k) = false from beq_eq_false_iff_ne.mpr (hk ▸ h)]
    · rw [if_pos (by simpa using hk), List.lookup, List.lookup]
      cases hu : (u == k) with
      | true => rfl
      | false => exact ih

/-! ### Tombstone lemmas -/

theorem tombF_priority (c : Nat) (e : Entry) :
    (tombF c e).priority = e.priority := by
  unfold tombF; split <;> rfl

theorem tombF_count (c : Nat) (e : Entry) : (tombF c e).count = e.count := by
  unfold tombF; split <;> rfl

theorem tombF_of_ne {c : Nat} {e : Entry} (h : e.count ≠ c) :
    tombF c e = e := by
  unfold tombF; rw [if_neg h]

theorem tombF_active {c : Nat} {x : Entry} {t : String}
    (h : (tombF c x).task = some t) : tombF c x = x ∧ x.count ≠ c := by
  by_cases hx : x.count = c
  · rw [tombF, if_pos hx] at h
    exact Option.noConfusion h
  · exact ⟨tombF_of_ne hx, hx⟩

theorem tombstone_map_count (c : Nat) (pq : List Entry) :
    (tombstone c pq).map Entry.count = pq.map Entry.count := by
  unfold tombstone
  rw [List.map_map]
  exact List.map_congr_left (fun e _ => tombF_count c e)

theorem tombstone_sorted {c : Nat} {pq : List Entry}
    (h : pq.Sorted entryLE) : (tombstone c pq).Sorted entryLE :=
  List.Pairwise.map (tombF c)
    (fun a b hab => by
      unfold entryLE at hab ⊢
      rw [tombF_priority, tombF_priority, tombF_count, tombF_count]
      exact hab) h

/-- The data-structure invariant tying `_pq`, `_entry_finder` and
`_counter` together. -/
structure Inv (h : PseudoFibonacciHeap) : Prop where
  sorted : h.pq.Sorted entryLE
  counts_nodup : (h.pq.map Entry.count).Nodup
  counts_lt : ∀ e ∈ h.pq, e.count < h.counter
  keys_nodup : (h.entry_finder.map Prod.fst).Nodup
  finder_mem : ∀ t e, (t, e) ∈ h.entry_finder → e.task = some t ∧ e ∈ h.pq
  active_mem : ∀ e ∈ h.pq, ∀ t, e.task = some t → (t, e) ∈ h.entry_finder

theorem inv_init : Inv PseudoFibonacciHeap.init := by
  constructor <;> simp [PseudoFibonacciHeap.init, List.Sorted]

/-- Invalidating a tracked entry (the body shared by `remove_task` and the
update path of `add_task`) preserves the invariant. -/
theorem inv_erase {h : PseudoFibonacciHeap} (inv : Inv h) {t : String}
    {e : Entry} (hl : h.entry_finder.lookup t = some e) :
    Inv ⟨tombstone e.count h.pq,
         h.entry_finder.filter (fun q => q.1 != t), h.counter⟩ := by
  have hmem : (t, e) ∈ h.entry_finder := lookup_mem hl
  have hte := inv.finder_mem t e hmem
  constructor
  · exact tombstone_sorted inv.sorted
  · rw [tombstone_map_count]
    exact inv.counts_nodup
  · intro e' he'
    obtain ⟨x, hx, rfl⟩ := List.mem_map.mp he'
    rw [tombF_count]
    exact inv.counts_lt x hx
  · exact ((List.filter_sublist _).map Prod.fst).nodup inv.keys_nodup
  · intro u e' hu
    obtain ⟨hin, hne⟩ := List.mem_filter.mp hu
    have h1 := inv.finder_mem u e' hin
    refine ⟨h1.1, ?_⟩
    have hut : u ≠ t := by simpa using hne
    have hee : e' ≠ e := by
      intro hEq
      rw [hEq, hte.1] at h1
      exact hut (Option.some_injective _ h1.1).symm
    have hcne : e'.count ≠ e.count := by
      intro hc
      exact hee (List.inj_on_of_nodup_map inv.counts_nodup h1.2 hte.2 hc)
    exact List.mem_map.mpr ⟨e', h1.2, tombF_of_ne hcne⟩
  · intro e'' he'' u hu
    obtain ⟨x, hx, rfl⟩ := List.mem_map.mp he''
    obtain ⟨hfix, hcne⟩ := tombF_active hu
    rw [hfix] at hu ⊢
    have hxf := inv.active_mem x hx u hu
    refine List.mem_filter.mpr ⟨hxf, ?_⟩
    have hut : u ≠ t := by
      intro hEq
      subst hEq
      have hxe : (u, x) = (u, e) :=
        List.inj_on_of_nodup_map inv.keys_nodup hxf hmem rfl
      have : x = e := congrArg Prod.snd hxe
      exact hcne (this ▸ rfl)
    simpa using hut

/-- Pushing a fresh entry for an untracked task preserves the invariant. -/
theorem inv_push {h1 : PseudoFibonacciHeap} (inv : Inv h1) (t : String)
    (p : Rat) (hl : h1.entry_finder.lookup t = none) :
    Inv ⟨h1.pq.orderedInsert entryLE ⟨p, h1.counter, some t⟩,
         (t, ⟨p, h1.counter, some t⟩) :: h1.entry_finder, h1.counter + 1⟩ := by
  constructor
  · exact List.Sorted.orderedInsert _ _ inv.sorted
  · have hperm :=
      (List.perm_orderedInsert entryLE ⟨p, h1.counter, some t⟩ h1.pq).map
        Entry.count
    rw [hperm.nodup_iff, List.map_cons, List.nodup_cons]
    refine ⟨?_, inv.counts_nodup⟩
    intro hmem
    obtain ⟨x, hx, hcx⟩ := List.mem_map.mp hmem
    exact absurd hcx (Nat.ne_of_lt (inv.counts_lt x hx))
  · intro e' he'
    rcases (List.mem_orderedInsert entryLE).mp he' with rfl | hmem
    · exact Nat.lt_succ_self _
    · exact Nat.lt_succ_of_lt (inv.counts_lt e' hmem)
  · rw [List.map_cons, List.nodup_cons]
    exact ⟨not_mem_keys_of_lookup_none hl, inv.keys_nodup⟩
  · intro u e' hu
    rcases List.mem_cons.mp hu with hEq | hmem
    · injection hEq with h1u h2u
      subst h1u; subst h2u
      exact ⟨rfl, (List.mem_orderedInsert entryLE).mpr (Or.inl rfl)⟩
    · have h2 := inv.finder_mem u e' hmem
      exact ⟨h2.1, (List.mem_orderedInsert entryLE).mpr (Or.inr h2.2)⟩
  · intro e'' he'' u hu
    rcases (List.mem_orderedInsert entryLE).mp he'' with rfl | hmem
    · have : t = u := by simpa using hu
      subst this
      exact List.mem_cons_self _ _
    · exact List.mem_cons_of_mem _ (inv.active_mem e'' hmem u hu)

theorem inv_add_task {h : PseudoFibonacciHeap} (inv : Inv h) (t : String)
    (p : Rat) : Inv (add_task h t p) := by
  unfold add_task
  cases hl : h.entry_finder.lookup t with
  | none => simpa only [hl] using inv_push inv t p hl
  | some e =>
    simpa only [hl] using
      inv_push (inv_erase inv hl) t p (lookup_filter_self _ _)

/-- Skipping a tombstoned head keeps the invariant for the remaining state. -/
theorem inv_tail_tomb {e : Entry} {rest : List Entry}
    {f : List (String × Entry)} {c : Nat}
    (inv : Inv ⟨e :: rest, f, c⟩) (he : e.task = none) :
    Inv ⟨rest, f, c⟩ := by
  constructor
  · exact inv.sorted.of_cons
  · have hcn : (List.map Entry.count (e :: rest)).Nodup := inv.counts_nodup
    rw [List.map_cons, List.nodup_cons] at hcn
    exact hcn.2
  · intro x hx
    exact inv.counts_lt x (List.mem_cons_of_mem _ hx)
  · exact inv.keys_nodup
  · intro u e' hu
    have h1 := inv.finder_mem u e' hu
    refine ⟨h1.1, ?_⟩
    rcases List.mem_cons.mp h1.2 with rfl | hm
    · rw [he] at h1
      exact absurd h1.1 (by simp)
    · exact hm
  · intro x hx u hu
    exact inv.active_mem x (List.mem_cons_of_mem _ hx) u hu

/-- Everything `pop_task` guarantees on success, under the invariant: the
returned task is currently tracked, its entry is least in the `heapq` order
(so least priority, with the count as tie-breaker), its count differs from
every other tracked entry's, the finder drops exactly that task, and the
invariant is preserved. -/
theorem popAux_ok {pq : List Entry} {f : List (String × Entry)} {c : Nat}
    {t : String} {h' : PseudoFibonacciHeap}
    (inv : Inv ⟨pq, f, c⟩) (hp : popAux pq f c = .ok (t, h')) :
    ∃ e, f.lookup t = some e ∧
      (∀ u e', (u, e') ∈ f → entryLE e e') ∧
      (∀ u e', (u, e') ∈ f → u ≠ t → e.count ≠ e'.count) ∧
      h'.entry_finder = f.filter (fun q => q.1 != t) ∧
      Inv h' := by
  induction pq with
  | nil => exact absurd hp (by simp [popAux])
  | cons e0 rest ih =>
    cases he0 : e0.task with
    | none =>
      rw [popAux, he0] at hp
      exact ih (inv_tail_tomb inv he0) hp
    | some t0 =>
      have hmem : (t0, e0) ∈ f :=
        inv.active_mem e0 (List.mem_cons_self _ _) t0 he0
      have hl : f.lookup t0 = some e0 := mem_lookup inv.keys_nodup hmem
      simp only [popAux, he0, hl] at hp
      injection hp with hp
      injection hp with ht hh'
      subst ht
      subst hh'
      refine ⟨e0, hl, ?_, ?_, rfl, ?_⟩
      · intro u e' hu
        rcases List.mem_cons.mp (inv.finder_mem u e' hu).2 with rfl | hm
        · exact entryLE_refl _
        · exact List.rel_of_sorted_cons inv.sorted e' hm
      · intro u e' hu hne hc
        have he' := inv.finder_mem u e' hu
        have : e0 = e' :=
          List.inj_on_of_nodup_map inv.counts_nodup
            (List.mem_cons_self _ _) he'.2 hc
        rw [← this, he0] at he'
        exact hne (Option.some_injective _ he'.1).symm
      · constructor
        · exact inv.sorted.of_cons
        · have hcn : (List.map Entry.count (e0 :: rest)).Nodup :=
            inv.counts_nodup
          rw [List.map_cons, List.nodup_cons] at hcn
          exact hcn.2
        · intro x hx
          exact inv.counts_lt x (List.mem_cons_of_mem _ hx)
        · exact ((List.filter_sublist _).map Prod.fst).nodup inv.keys_nodup
        · intro u e' hu
          obtain ⟨hin, hne⟩ := List.mem_filter.mp hu
          have h1 := inv.finder_mem u e' hin
          refine ⟨h1.1, ?_⟩
          rcases List.mem_cons.mp h1.2 with rfl | hm
          · rw [he0] at h1
            exact absurd (Option.some_injective _ h1.1).symm (by simpa using hne)
          · exact hm
        · intro x hx u hu
          have hxf := inv.active_mem x (List.mem_cons_of_mem _ hx) u hu
          refine List.mem_filter.mpr ⟨hxf, ?_⟩
          have hut : u ≠ t0 := by
            intro hEq
            subst hEq
            have hxe : (u, x) = (u, e0) :=
              List.inj_on_of_nodup_map inv.keys_nodup hxf hmem rfl
            have hx0 : x = e0 := congrArg Prod.snd hxe
            have hcn : (List.map Entry.count (e0 :: rest)).Nodup :=
              inv.counts_nodup
            rw [List.map_cons, List.nodup_cons] at hcn
            exact hcn.1 (hx0 ▸ List.mem_map_of_mem Entry.count hx)
          simpa using hut

theorem popAux_error_of_nil_finder (pq : List Entry) (c : Nat) :
    ∃ s, popAux pq [] c = .error s := by
  induction pq with
  | nil => exact ⟨_, rfl⟩
  | cons e rest ih =>
    cases he : e.task with
    | none => simpa [popAux, he] using ih
    | some t => exact ⟨"KeyError", by simp [popAux, he, List.lookup]⟩

theorem popAux_ok_of_finder_ne {pq : List Entry}
    {f : List (String × Entry)} {c : Nat}
    (inv : Inv ⟨pq, f, c⟩) (hf : f ≠ []) :
    ∃ t h', popAux pq f c = .ok (t, h') := by
  induction pq with
  | nil =>
    obtain ⟨⟨u, e⟩, hm⟩ := List.exists_mem_of_ne_nil f hf
    exact absurd (inv.finder_mem u e hm).2 (by simp)
  | cons e0 rest ih =>
    cases he0 : e0.task with
    | none =>
      obtain ⟨t, h', hr⟩ := ih (inv_tail_tomb inv he0)
      exact ⟨t, h', by rw [popAux, he0]; exact hr⟩
    | some t0 =>
      have hl : f.lookup t0 = some e0 := mem_lookup inv.keys_nodup
        (inv.active_mem e0 (List.mem_cons_self _ _) t0 he0)
      exact ⟨t0, ⟨rest, f.filter (fun q => q.1 != t0), c⟩,
        by simp only [popAux, he0, hl]⟩

theorem inv_of_reachable {h : PseudoFibonacciHeap} (r : Reachable h) :
    Inv h := by
  induction r with
  | init => exact inv_init
  | add t p _ ih => exact inv_add_task ih t p
  | @remove h0 h' t _ hr ih =>
    unfold remove_task at hr
    cases hl : h0.entry_finder.lookup t with
    | none => rw [hl] at hr; exact absurd hr (by simp)
    | some e =>
      rw [hl] at hr
      injection hr with hr
      exact hr ▸ inv_erase ih hl
  | pop _ hp ih =>
    obtain ⟨e, _, _, _, _, invh'⟩ := popAux_ok ih hp
    exact invh'

deriving instance DecidableEq for Except

/-- The spec's queue example: `insert_or_update("L1",5.0)`,
`insert_or_update("L2",3.0)`, `insert_or_update("L1",1.0)`. -/
def exHeap : PseudoFibonacciHeap :=
  add_task (add_task (add_task .init "L1" 5) "L2" 3) "L1" 1

/-- A queue holding two tasks with equal priority, "A" added first. -/
def tieHeap : PseudoFibonacciHeap :=
  add_task (add_task .init "A" 5) "B" 5

/-- C6: after any finite sequence of `add_task`/`remove_task`/`pop_task`
operations on an initially empty queue, a successful `pop_task` returns a
currently-tracked task whose current priority is least among all tracked
tasks and stops tracking exactly that task (so it never returns a task whose
latest entry was removed or superseded), and `pop_task` yields an error
exactly when no tracked task remains; in the spec's example, successive pops
yield "L1" then "L2". -/
theorem pop_task_correct :
    (∀ h, Reachable h →
      (((∃ s, pop_task h = .error s) ↔ h.entry_finder = []) ∧
       (∀ t h', pop_task h = .ok (t, h') →
         (∃ e, h.entry_finder.lookup t = some e ∧
            ∀ u e', (u, e') ∈ h.entry_finder → e.priority ≤ e'.priority) ∧
         h'.entry_finder.lookup t = none ∧
         (∀ u, u ≠ t →
            h'.entry_finder.lookup u = h.entry_finder.lookup u)))) ∧
    ((pop_task exHeap).bind fun r =>
        (pop_task r.2).map fun r2 => (r.1, r2.1)) = .ok ("L1", "L2") := by
  constructor
  · intro h hr
    have inv := inv_of_reachable hr
    constructor
    · constructor
      · rintro ⟨s, hs⟩
        by_contra hne
        obtain ⟨t, h', hok⟩ := popAux_ok_of_finder_ne inv hne
        unfold pop_task at hs
        rw [hok] at hs
        exact Except.noConfusion hs
      · intro hnil
        obtain ⟨s, hs⟩ := popAux_error_of_nil_finder h.pq h.counter
        refine ⟨s, ?_⟩
        unfold pop_task
        rw [hnil]
        exact hs
    · intro t h' hok
      unfold pop_task at hok
      obtain ⟨e, hl, hmin, hcnt, hfind, hinv⟩ := popAux_ok inv hok
      refine ⟨⟨e, hl, fun u e' hu => entryLE_priority (hmin u e' hu)⟩, ?_, ?_⟩
      · rw [hfind]
        exact lookup_filter_self _ _
      · intro u hu
        rw [hfind]
        exact lookup_filter_other hu
  · decide

/-- Witness for C6 at the spec's concrete three-insert example. -/
theorem pop_task_correct_witness :
    ∃ e, exHeap.entry_finder.lookup "L1" = some e ∧
      ∀ u e', (u, e') ∈ exHeap.entry_finder → e.priority ≤ e'.priority := by
  have hr : Reachable exHeap :=
    .add "L1" 1 (.add "L2" 3 (.add "L1" 5 .init))
  exact ((pop_task_correct.1 exHeap hr).2 "L1"
    ⟨[⟨3, 1, some "L2"⟩, ⟨5, 0, none⟩], [("L2", ⟨3, 1, some "L2"⟩)], 3⟩
    (by decide)).1

/-- C10: among tracked tasks of equal priority, `pop_task` returns the one
whose entry carries the strictly smallest sequence count, i.e. the task whose
most recent `add_task` happened earliest; pop order is deterministic under
ties. -/
theorem pop_task_tie_break :
    ∀ h, Reachable h → ∀ t h', pop_task h = .ok (t, h') →
      ∃ e, h.entry_finder.lookup t = some e ∧
        ∀ u e', (u, e') ∈ h.entry_finder → u ≠ t →
          e'.priority = e.priority → e.count < e'.count := by
  intro h hr t h' hok
  have inv := inv_of_reachable hr
  unfold pop_task at hok
  obtain ⟨e, hl, hmin, hcnt, _, _⟩ := popAux_ok inv hok
  refine ⟨e, hl, fun u e' hu hne hp => ?_⟩
  rcases hmin u e' hu with hlt | ⟨hpe, hce⟩
  · exact absurd hp.symm (ne_of_lt hlt)
  · exact lt_of_le_of_ne hce (hcnt u e' hu hne)

/-- Witness for C10 on a queue with a genuine priority tie. -/
theorem pop_task_tie_break_witness :
    ∃ e, tieHeap.entry_finder.lookup "A" = some e ∧
      ∀ u e', (u, e') ∈ tieHeap.entry_finder → u ≠ "A" →
        e'.priority = e.priority → e.count < e'.count := by
  have hr : Reachable tieHeap := .add "B" 5 (.add "A" 5 .init)
  exact pop_task_tie_break tieHeap hr "A"
    ⟨[⟨5, 1, some "B"⟩], [("B", ⟨5, 1, some "B"⟩)], 2⟩ (by decide)

/-! ## PCCMLabel (core.py lines 65-273)

Python floats become `Rat`; `None`-able attributes become `Option`; node ids
are `Int`.  `supporting_pts` is the two-element list `[times, socs]` of
parallel arrays, modelled by the two lists themselves (so
`len(self.supporting_pts)` is the constant 2, while
`len(self.supporting_pts[0])` is `times.length`).  Code paths that raise
Python exceptions return `Except.error` with the exception text. -/

/-- The non-recursive attributes set by `PCCMLabel.__init__`. -/
structure LabelData where
  node_id_for_label : Int
  key_time : Rat
  trip_time : Rat
  last_visited_cs : Option Int
  soc_arr_to_last_cs : Rat
  energy_consumed_since_last_cs : Rat
  times : List Rat
  socs : List Rat
  slope : Option (List Rat)
  time_last_arc : Rat
  energy_last_arc : Rat
  y_intercept : Option (List Rat)

/-- A label together with its optional `parent` reference; ancestor chains
are finite and acyclic (a label cannot be its own ancestor). -/
inductive PCCMLabel where
  | mk (data : LabelData) (parent : Option PCCMLabel)

def PCCMLabel.data : PCCMLabel → LabelData
  | .mk d _ => d

def PCCMLabel.parent : PCCMLabel → Option PCCMLabel
  | .mk _ p => p

def PCCMLabel.node_id_for_label (l : PCCMLabel) : Int :=
  l.data.node_id_for_label

def PCCMLabel.key_time (l : PCCMLabel) : Rat := l.data.key_time

def PCCMLabel.trip_time (l : PCCMLabel) : Rat := l.data.trip_time

def PCCMLabel.last_visited_cs (l : PCCMLabel) : Option Int :=
  l.data.last_visited_cs

def PCCMLabel.soc_arr_to_last_cs (l : PCCMLabel) : Rat :=
  l.data.soc_arr_to_last_cs

def PCCMLabel.energy_consumed_since_last_cs (l : PCCMLabel) : Rat :=
  l.data.energy_consumed_since_last_cs

def PCCMLabel.times (l : PCCMLabel) : List Rat := l.data.times

def PCCMLabel.socs (l : PCCMLabel) : List Rat := l.data.socs

def PCCMLabel.slope (l : PCCMLabel) : Option (List Rat) := l.data.slope

def PCCMLabel.y_intercept (l : PCCMLabel) : Option (List Rat) :=
  l.data.y_intercept

/-- `_compute_y_intercept` (lines 88-93), for a non-`None` slope:
`[socs[b] - slope[b]*times[b] for b in range(len(slope))]`.  Indexing is
modelled with `getD`; the comprehension's indices are in range whenever
`len(slope) ≤ len(times), len(socs)` (true for well-formed profiles). -/
def computeYIntercept (times socs slope : List Rat) : List Rat :=
  (List.range slope.length).map fun b =>
    socs.getD b 0 - slope.getD b 0 * times.getD b 0

/-- `PCCMLabel.__init__` (lines 70-86): stores every attribute; when the
`y_intercept` argument is `None` it stores `_compute_y_intercept()`, which is
`None` when `slope` is `None`. -/
def mkLabel (node_id_for_label : Int) (key_time trip_time : Rat)
    (last_visited_cs : Option Int)
    (soc_arr_to_last_cs energy_consumed_since_last_cs : Rat)
    (times socs : List Rat) (slope : Option (List Rat))
    (time_last_arc energy_last_arc : Rat) (parent : Option PCCMLabel)
    (y_intercept : Option (List Rat)) : PCCMLabel :=
  .mk { node_id_for_label, key_time, trip_time, last_visited_cs,
        soc_arr_to_last_cs, energy_consumed_since_last_cs, times, socs,
        slope, time_last_arc, energy_last_arc,
        y_intercept :=
          match y_intercept with
          | some v => some v
          | none =>
              match slope with
              | none => none
              | some sl => some (computeYIntercept times socs sl) }
    parent

/-- The `while (low + 1 < high)` dichotomic-search loop of
`get_soc_dichotomic` (lines 130-137), returning the final `(low, high)`.
`times.getD mid 0` models `self.supporting_pts[0][mid]`, in range whenever
`high < times.length`. -/
def dichotomicLoop (times : List Rat) (time : Rat) (low high : Nat) :
    Nat × Nat :=
  if h : low + 1 < high then
    let mid := (low + high) / 2
    if times.getD mid 0 < time then dichotomicLoop times time mid high
    else dichotomicLoop times time low mid
  else (low, high)
termination_by high - low
decreasing_by
  · omega
  · omega

/-- `get_soc_dichotomic` (lines 122-139).  Values are `WithBot Rat`, with
`⊥` for the `-float('inf')` sentinel.  NOTE the faithful modelling of line
126: `n_pts = len(self.supporting_pts)` is the number of parallel arrays —
the constant 2 — not the breakpoint count `len(self.supporting_pts[0])`;
hence `high = n_pts - 1 = 1` and the loop body never runs, leaving
`low = 0`. -/
def get_soc_dichotomic (l : PCCMLabel) (time : Rat) :
    Except String (WithBot Rat) :=
  if time < l.trip_time then .ok ⊥
  else
    -- n_pts = len(self.supporting_pts) = 2 (count of parallel arrays)
    let n_pts : Nat := 2
    match l.times.getLast? with
    | none => .error "IndexError: list index out of range"
    | some tLast =>
        if tLast ≤ time then
          match l.socs.getLast? with
          | none => .error "IndexError: list index out of range"
          | some sLast => .ok (sLast : WithBot Rat)
        else
          let low := (dichotomicLoop l.times time 0 (n_pts - 1)).1
          match l.slope with
          | none => .error "TypeError: 'NoneType' object is not subscriptable"
          | some sl =>
              match l.y_intercept with
              | none =>
                  .error "TypeError: 'NoneType' object is not subscriptable"
              | some yi =>
                  match sl.get? low, yi.get? low with
                  | some s, some y => .ok ((s * time + y : Rat) : WithBot Rat)
                  | _, _ => .error "IndexError: list index out of range"

/-- The second SOC-dominance loop of `dominates` (lines 115-118): for each
breakpoint `(t, s)` of the other label (`other.supporting_pts[0][k]` paired
with `other.supporting_pts[1][k]`; equal lengths for well-formed profiles),
compare `self.get_soc_dichotomic(t)` against `s`. -/
def socCheckOther (self : PCCMLabel) : List (Rat × Rat) → Except String Bool
  | [] => .ok true
  | (t, s) :: rest =>
      match get_soc_dichotomic self t with
      | .error e => .error e
      | .ok soc =>
          if soc < (s : WithBot Rat) then .ok false
          else socCheckOther self rest

/-- `dominates` (lines 95-120).  After the trip-time and final-SOC checks,
the first SOC-dominance loop (lines 109-112) runs for `k in range(n_pts)`
with `n_pts = len(self.supporting_pts[0]) ≥ 1`, and its body looks up
`other.getSOCDichotomic` — a method that does not exist (the defined name is
`get_soc_dichotomic`), so the first iteration raises AttributeError.  The
second loop is reachable only when `self` has no breakpoints at all. -/
def dominates (self other : PCCMLabel) : Except String Bool :=
  if self.trip_time > other.trip_time then .ok false
  else
    match self.socs.getLast?, other.socs.getLast? with
    | some a, some b =>
        if a < b then .ok false
        else if 0 < self.times.length then
          .error "AttributeError: 'PCCMLabel' object has no attribute 'getSOCDichotomic'"
        else socCheckOther self (other.times.zip other.socs)
    | _, _ => .error "IndexError: list index out of range"

/-- `get_first_supp_pt_soc` (line 141-142): `supporting_pts[1][0]`, in range
for well-formed profiles. -/
def get_first_supp_pt_soc (l : PCCMLabel) : Rat := l.socs.getD 0 0

/-- `get_last_supp_pt_soc` (line 144-145): `supporting_pts[1][-1]`. -/
def get_last_supp_pt_soc (l : PCCMLabel) : Rat := (l.socs.getLast?).getD 0

/-- `get_num_supp_pts` (line 147-149): `len(supporting_pts[0])`. -/
def get_num_supp_pts (l : PCCMLabel) : Nat := l.times.length

/-- `get_path` (lines 151-160): node ids from the label back to the root. -/
def get_path : PCCMLabel → List Int
  | .mk d none => [d.node_id_for_label]
  | .mk d (some p) => d.node_id_for_label :: get_path p

/-- The `while not stop` loop of `get_path_from_last_customer`
(lines 177-184), started at a label playing the role of `curr_parent`.
Each iteration appends the current node id and steps to the parent; the
line `curr_prev_cs = curr_parent.last_visited_cs` dereferences the new
`curr_parent` BEFORE the `curr_parent is None` test, so reaching the end of
the chain raises AttributeError; otherwise the loop stops when the parent's
`last_visited_cs` is `None` or equal to the current label's. -/
def gplcLoop : PCCMLabel → Except String (List Int)
  | .mk _ none =>
      .error "AttributeError: 'NoneType' object has no attribute 'last_visited_cs'"
  | .mk d (some p) =>
      if p.last_visited_cs = none ∨ p.last_visited_cs = d.last_visited_cs
      then .ok [d.node_id_for_label]
      else
        match gplcLoop p with
        | .ok rest => .ok (d.node_id_for_label :: rest)
        | .error s => .error s

/-- `get_path_from_last_customer` (lines 162-186): `[]` when
`last_visited_cs` is `None`, otherwise the walk `gplcLoop`. -/
def get_path_from_last_customer (l : PCCMLabel) : Except String (List Int) :=
  match l.last_visited_cs with
  | none => .ok []
  | some _ => gplcLoop l

/-- `get_charging_amounts` (lines 188-218): `[]` when `last_visited_cs` is
`None`.  Otherwise line 194 evaluates
`self.energy_consumed_since_last_cs + self.get_first_supp_pt_soc -
self.soc_arr_to_last_cs`, where `get_first_supp_pt_soc` is referenced
WITHOUT call parentheses: Python adds a float and a bound-method object and
raises TypeError, so the rest of the function (lines 198-218) is
unreachable. -/
def get_charging_amounts (l : PCCMLabel) : Except String (List Rat) :=
  match l.last_visited_cs with
  | none => .ok []
  | some _ =>
      .error "TypeError: unsupported operand type(s) for +: 'float' and 'method'"

/-- `compare_to` (lines 240-253): order by `key_time`, tie-break by larger
first-breakpoint SOC (`supporting_pts[1][0]`, modelled by `getD`, in range
for well-formed profiles). -/
def compare_to (self other : PCCMLabel) : Int :=
  if self.key_time < other.key_time then -1
  else if other.key_time < self.key_time then 1
  else
    let diff := other.socs.getD 0 0 - self.socs.getD 0 0
    if 0 < diff then 1
    else if diff < 0 then -1
    else 0

/-- Well-formedness of a label profile per the spec's data model: at least
two breakpoints, parallel arrays of equal length, one slope per segment,
strictly increasing times and non-decreasing SOCs. -/
def wellFormedProfile (times socs slope : List Rat) : Prop :=
  2 ≤ times.length ∧ socs.length = times.length ∧
  slope.length + 1 = times.length ∧
  times.Chain' (· < ·) ∧ socs.Chain' (· ≤ ·)

instance (times socs slope : List Rat) :
    Decidable (wellFormedProfile times socs slope) :=
  inferInstanceAs (Decidable (2 ≤ times.length ∧
    socs.length = times.length ∧ slope.length + 1 = times.length ∧
    times.Chain' (· < ·) ∧ socs.Chain' (· ≤ ·)))

/-! ### Concrete labels for the claims -/

/-- First node-3 label of the spec's dominance example:
times = [0,10,20], socs = [5,5,8]. -/
def labelC1a : PCCMLabel :=
  mkLabel 3 0 0 none 0 0 [0, 10, 20] [5, 5, 8] (some [0, 3/10]) 0 0 none none

/-- Second node-3 label of the spec's dominance example:
times = [0,10,20], socs = [5,6,8]. -/
def labelC1b : PCCMLabel :=
  mkLabel 3 0 0 none 0 0 [0, 10, 20] [5, 6, 8] (some [1/10, 1/5]) 0 0
    none none

/-- A well-formed three-breakpoint label: times = [0,10,20],
socs = [0,5,8], consistent slopes [1/2, 3/10], computed
y-intercepts [0, 2]. -/
def labelBug : PCCMLabel :=
  mkLabel 1 0 0 none 0 0 [0, 10, 20] [0, 5, 8] (some [1/2, 3/10]) 0 0
    none none

theorem labelBug_eq :
    labelBug = .mk ⟨1, 0, 0, none, 0, 0, [0, 10, 20], [0, 5, 8],
      some [1/2, 3/10], 0, 0, some [0, 2]⟩ none := by
  unfold labelBug mkLabel computeYIntercept
  norm_num [List.range_succ]

/-- With `high = 1` the `while (low + 1 < high)` loop exits immediately. -/
theorem dichotomicLoop_base (times : List Rat) (time : Rat) :
    dichotomicLoop times time 0 1 = (0, 1) := by
  rw [dichotomicLoop]
  norm_num

/-- C1: the spec's dominance criterion, with its node-3 example
(times = [0,10,20], socs = [5,5,8] vs socs = [5,6,8]; the second should
dominate the first and not conversely).  The code cannot return a Boolean
on this example in either direction: after the trip-time and final-SOC
checks, `dominates` calls the nonexistent method `getSOCDichotomic`
(line 110; the defined name is `get_soc_dichotomic`), raising
AttributeError. -/
theorem dominates_raises_attribute_error :
    dominates labelC1b labelC1a =
      .error "AttributeError: 'PCCMLabel' object has no attribute 'getSOCDichotomic'" ∧
    dominates labelC1a labelC1b =
      .error "AttributeError: 'PCCMLabel' object has no attribute 'getSOCDichotomic'" :=
  ⟨rfl, rfl⟩

/-- C2: evaluation is claimed to pick the largest segment index `i` with
`times[i] ≤ time` via a binary search bounded by the breakpoint count.  On
the well-formed three-breakpoint label and time 15 the claimed segment is
`i = 1` (times[1] = 10 ≤ 15 < 20 = times[2]) with value
slope[1]·15 + y_intercept[1] = 13/2, but the code takes
`n_pts = len(self.supporting_pts) = 2` (the count of parallel arrays), the
search loop never runs, and segment 0 is evaluated instead:
slope[0]·15 + y_intercept[0] = 15/2 ≠ 13/2. -/
theorem get_soc_dichotomic_wrong_segment :
    wellFormedProfile [0, 10, 20] [0, 5, 8] [1/2, 3/10] ∧
    labelBug.times.getD 1 0 ≤ 15 ∧ (15 : Rat) < labelBug.times.getD 2 0 ∧
    ((3/10 : Rat) * 15 + 2 = 13/2) ∧
    get_soc_dichotomic labelBug 15 = .ok ((15/2 : Rat) : WithBot Rat) ∧
    ((15/2 : Rat) : WithBot Rat) ≠ ((13/2 : Rat) : WithBot Rat) := by
  refine ⟨by norm_num [wellFormedProfile, List.chain'_cons], ?_, ?_,
    by norm_num, ?_, ?_⟩
  · rw [labelBug_eq]; norm_num [PCCMLabel.times, PCCMLabel.data]
  · rw [labelBug_eq]; norm_num [PCCMLabel.times, PCCMLabel.data]
  · rw [labelBug_eq]
    unfold get_soc_dichotomic
    norm_num [dichotomicLoop_base, PCCMLabel.trip_time, PCCMLabel.times,
      PCCMLabel.socs, PCCMLabel.slope, PCCMLabel.y_intercept,
      PCCMLabel.data]
  · simp only [ne_eq, WithBot.coe_inj]
    norm_num

/-- C3: evaluation is claimed non-decreasing on `[trip_time, last
breakpoint]`, flat beyond, and `-inf` strictly below `trip_time`.  On the
same well-formed concave label the mis-bounded search makes the code
evaluate segment 0 everywhere before the final breakpoint, so the value at
time 18 is 9 while the value at time 20 is 8: evaluation DECREASES inside
`[trip_time, last breakpoint] = [0, 20]`.  (The flat-beyond and `-inf`
parts do hold at this label.) -/
theorem get_soc_dichotomic_not_monotone :
    wellFormedProfile [0, 10, 20] [0, 5, 8] [1/2, 3/10] ∧
    labelBug.trip_time = 0 ∧ labelBug.times.getLast? = some 20 ∧
    get_soc_dichotomic labelBug 18 = .ok ((9 : Rat) : WithBot Rat) ∧
    get_soc_dichotomic labelBug 20 = .ok ((8 : Rat) : WithBot Rat) ∧
    ¬ (((9 : Rat) : WithBot Rat) ≤ ((8 : Rat) : WithBot Rat)) ∧
    get_soc_dichotomic labelBug 25 = .ok ((8 : Rat) : WithBot Rat) ∧
    get_soc_dichotomic labelBug (-1) = .ok (⊥ : WithBot Rat) := by
  refine ⟨by norm_num [wellFormedProfile, List.chain'_cons], ?_, ?_, ?_,
    ?_, ?_, ?_, ?_⟩
  · rw [labelBug_eq]; rfl
  · rw [labelBug_eq]; rfl
  · rw [labelBug_eq]
    unfold get_soc_dichotomic
    norm_num [dichotomicLoop_base, PCCMLabel.trip_time, PCCMLabel.times,
      PCCMLabel.socs, PCCMLabel.slope, PCCMLabel.y_intercept,
      PCCMLabel.data]
  · rw [labelBug_eq]; rfl
  · simp only [WithBot.coe_le_coe]
    norm_num
  · rw [labelBug_eq]; rfl
  · rw [labelBug_eq]; rfl

/-- C4: a label constructed without explicit `y_intercept` stores exactly
`socs[i] − slope[i]·times[i]` for every segment `i`, and its evaluation
agrees at every time with a label constructed from the same data with those
y-intercept values passed explicitly. -/
theorem y_intercept_reconstruction (times socs slope : List Rat)
    (_wf : wellFormedProfile times socs slope) (nid : Int) (kt tt : Rat)
    (lvc : Option Int) (sa ec tla ela : Rat) (parent : Option PCCMLabel) :
    (mkLabel nid kt tt lvc sa ec times socs (some slope) tla ela parent
        none).y_intercept = some (computeYIntercept times socs slope) ∧
    (∀ i : Fin slope.length,
      (computeYIntercept times socs slope).getD i 0
        = socs.getD i 0 - slope.getD i 0 * times.getD i 0) ∧
    (∀ t : Rat,
      get_soc_dichotomic (mkLabel nid kt tt lvc sa ec times socs
          (some slope) tla ela parent none) t
        = get_soc_dichotomic (mkLabel nid kt tt lvc sa ec times socs
          (some slope) tla ela parent
          (some (computeYIntercept times socs slope))) t) := by
  refine ⟨rfl, ?_, fun t => rfl⟩
  intro i
  unfold computeYIntercept
  rw [List.getD_eq_getElem?_getD, List.getElem?_map,
    List.getElem?_range i.isLt]
  rfl

/-- Witness for C4 on the concrete well-formed three-breakpoint profile. -/
theorem y_intercept_reconstruction_witness :
    (mkLabel 1 0 0 none 0 0 [0, 10, 20] [0, 5, 8] (some [1/2, 3/10]) 0 0
        none none).y_intercept
      = some (computeYIntercept [0, 10, 20] [0, 5, 8] [1/2, 3/10]) ∧
    get_soc_dichotomic (mkLabel 1 0 0 none 0 0 [0, 10, 20] [0, 5, 8]
        (some [1/2, 3/10]) 0 0 none none) 15
      = get_soc_dichotomic (mkLabel 1 0 0 none 0 0 [0, 10, 20] [0, 5, 8]
        (some [1/2, 3/10]) 0 0 none
        (some (computeYIntercept [0, 10, 20] [0, 5, 8] [1/2, 3/10]))) 15 := by
  have h := y_intercept_reconstruction [0, 10, 20] [0, 5, 8] [1/2, 3/10]
    (by norm_num [wellFormedProfile, List.chain'_cons]) 1 0 0 none 0 0 0 0
    none
  exact ⟨h.1, h.2.2 15⟩

/-! ### compare_to characterization (C5) -/

theorem compare_to_eq_neg_one (a b : PCCMLabel) :
    compare_to a b = -1 ↔
      (a.key_time < b.key_time ∨
        (a.key_time = b.key_time ∧ b.socs.getD 0 0 < a.socs.getD 0 0)) := by
  unfold compare_to
  dsimp only
  split_ifs with h1 h2 h3 h4
  · simp [h1]
  · constructor
    · intro h; exact absurd h (by decide)
    · rintro (h | ⟨he, _⟩)
      · exact absurd h h1
      · exact absurd (he ▸ h2) (lt_irrefl _)
  · constructor
    · intro h; exact absurd h (by decide)
    · rintro (h | ⟨he, hs⟩)
      · exact absurd h h1
      · exact absurd (sub_pos.mp h3) (not_lt.mpr (le_of_lt hs))
  · constructor
    · intro _
      exact Or.inr ⟨le_antisymm (not_lt.mp h2) (not_lt.mp h1), sub_neg.mp h4⟩
    · intro _; rfl
  · constructor
    · intro h; exact absurd h (by decide)
    · rintro (h | ⟨he, hs⟩)
      · exact absurd h h1
      · exact absurd (sub_neg.mpr hs) h4

theorem compare_to_eq_one (a b : PCCMLabel) :
    compare_to a b = 1 ↔
      (b.key_time < a.key_time ∨
        (a.key_time = b.key_time ∧ a.socs.getD 0 0 < b.socs.getD 0 0)) := by
  unfold compare_to
  dsimp only
  split_ifs with h1 h2 h3 h4
  · constructor
    · intro h; exact absurd h (by decide)
    · rintro (h | ⟨he, _⟩)
      · exact absurd (h1.trans h) (lt_irrefl _)
      · exact absurd (he ▸ h1) (lt_irrefl _)
  · simp [h2]
  · constructor
    · intro _
      exact Or.inr ⟨le_antisymm (not_lt.mp h2) (not_lt.mp h1), sub_pos.mp h3⟩
    · intro _; rfl
  · constructor
    · intro h; exact absurd h (by decide)
    · rintro (h | ⟨he, hs⟩)
      · exact absurd h h2
      · exact absurd (sub_pos.mpr hs) (not_lt.mpr (le_of_lt h4))
  · constructor
    · intro h; exact absurd h (by decide)
    · rintro (h | ⟨he, hs⟩)
      · exact absurd h h2
      · exact absurd (sub_pos.mpr hs) h3

theorem compare_to_eq_zero (a b : PCCMLabel) :
    compare_to a b = 0 ↔
      (a.key_time = b.key_time ∧ a.socs.getD 0 0 = b.socs.getD 0 0) := by
  unfold compare_to
  dsimp only
  split_ifs with h1 h2 h3 h4
  · constructor
    · intro h; exact absurd h (by decide)
    · rintro ⟨he, _⟩; exact absurd (he ▸ h1) (lt_irrefl _)
  · constructor
    · intro h; exact absurd h (by decide)
    · rintro ⟨he, _⟩; exact absurd (he ▸ h2) (lt_irrefl _)
  · constructor
    · intro h; exact absurd h (by decide)
    · rintro ⟨_, hs⟩; exact absurd (hs ▸ h3) (by simp)
  · constructor
    · intro h; exact absurd h (by decide)
    · rintro ⟨_, hs⟩; exact absurd (hs ▸ h4) (by simp)
  · constructor
    · intro _
      refine ⟨le_antisymm (not_lt.mp h2) (not_lt.mp h1), ?_⟩
      have := sub_eq_zero.mp (le_antisymm (not_lt.mp h3) (not_lt.mp h4))
      exact this.symm
    · intro _; rfl

/-- Two distinct labels — different trip times and supporting points — that
`compare_to` nevertheless reports as equal (same `key_time`, same first
breakpoint SOC). -/
def labelC5a : PCCMLabel :=
  mkLabel 1 0 2 none 0 0 [2, 3] [5, 5] none 0 0 none none

def labelC5b : PCCMLabel :=
  mkLabel 1 0 3 none 0 0 [3, 4] [5, 5] none 0 0 none none

/-- C5 counterexample: for the distinct labels `labelC5a ≠ labelC5b`
(trip times 2 vs 3) neither less-than nor greater-than holds —
`compare_to` returns 0 — so the comparison is not a strict total order on
labels. -/
theorem compare_to_not_strict_total :
    labelC5a ≠ labelC5b ∧ compare_to labelC5a labelC5b = 0 ∧
    ¬ (compare_to labelC5a labelC5b < 0 ∨
       0 < compare_to labelC5a labelC5b) := by
  have hc : compare_to labelC5a labelC5b = 0 := by
    norm_num [compare_to, labelC5a, labelC5b, mkLabel, PCCMLabel.key_time,
      PCCMLabel.socs, PCCMLabel.data]
  refine ⟨?_, hc, by rw [hc]; norm_num⟩
  intro h
  have := congrArg PCCMLabel.trip_time h
  rw [show labelC5a.trip_time = 2 from rfl,
    show labelC5b.trip_time = 3 from rfl] at this
  exact absurd this (by norm_num)

/-- C5 amended: `compare_to` orders labels by earlier `key_time`, breaking
ties by larger first-breakpoint SOC, and is a strict weak order (irreflexive,
transitive, asymmetric, total up to compare-equality); however, distinct
labels with equal `key_time` and equal first-breakpoint SOC compare equal, so
it is a total preorder on labels, strict only on the
(key_time, first-breakpoint SOC) projection. -/
theorem compare_to_total_preorder :
    (∀ a b : PCCMLabel, compare_to a b = -1 ↔
      (a.key_time < b.key_time ∨
        (a.key_time = b.key_time ∧ b.socs.getD 0 0 < a.socs.getD 0 0))) ∧
    (∀ a b : PCCMLabel, compare_to a b = 0 ↔
      (a.key_time = b.key_time ∧ a.socs.getD 0 0 = b.socs.getD 0 0)) ∧
    (∀ a b : PCCMLabel, compare_to a b = -1 ↔ compare_to b a = 1) ∧
    (∀ a : PCCMLabel, compare_to a a = 0) ∧
    (∀ a b : PCCMLabel,
      compare_to a b = -1 ∨ compare_to a b = 1 ∨ compare_to a b = 0) ∧
    (∀ a b c : PCCMLabel, compare_to a b = -1 → compare_to b c = -1 →
      compare_to a c = -1) := by
  refine ⟨compare_to_eq_neg_one, compare_to_eq_zero, ?_, ?_, ?_, ?_⟩
  · intro a b
    rw [compare_to_eq_neg_one, compare_to_eq_one]
    constructor
    · rintro (h | ⟨he, hs⟩)
      · exact Or.inl h
      · exact Or.inr ⟨he.symm, hs⟩
    · rintro (h | ⟨he, hs⟩)
      · exact Or.inl h
      · exact Or.inr ⟨he.symm, hs⟩
  · intro a
    exact (compare_to_eq_zero a a).mpr ⟨rfl, rfl⟩
  · intro a b
    unfold compare_to
    dsimp only
    split_ifs <;> simp
  · intro a b c hab hbc
    rw [compare_to_eq_neg_one] at hab hbc ⊢
    rcases hab with h1 | ⟨h1, h1s⟩ <;> rcases hbc with h2 | ⟨h2, h2s⟩
    · exact Or.inl (h1.trans h2)
    · exact Or.inl (h2 ▸ h1)
    · exact Or.inl (h1 ▸ h2)
    · exact Or.inr ⟨h1.trans h2, h2s.trans h1s⟩

/-- Labels with strictly increasing key times, used to witness C5's
transitivity at concrete inputs. -/
def labelW1 : PCCMLabel :=
  mkLabel 1 1 1 none 0 0 [1, 2] [7, 7] none 0 0 none none

def labelW2 : PCCMLabel :=
  mkLabel 1 2 2 none 0 0 [2, 3] [7, 7] none 0 0 none none

def labelW3 : PCCMLabel :=
  mkLabel 1 3 3 none 0 0 [3, 4] [7, 7] none 0 0 none none

/-- Witness for C5's amended theorem: transitivity applied at concrete
labels with key times 1 < 2 < 3. -/
theorem compare_to_total_preorder_witness :
    compare_to labelW1 labelW3 = -1 := by
  refine compare_to_total_preorder.2.2.2.2.2 labelW1 labelW2 labelW3 ?_ ?_
  · rw [compare_to_total_preorder.1]
    exact Or.inl (by norm_num [labelW1, labelW2, mkLabel,
      PCCMLabel.key_time, PCCMLabel.data])
  · rw [compare_to_total_preorder.1]
    exact Or.inl (by norm_num [labelW2, labelW3, mkLabel,
      PCCMLabel.key_time, PCCMLabel.data])

/-! ### Charging-amount reconstruction (C7) -/

/-- Root label at the depot: no charging station visited yet. -/
def labelDepot : PCCMLabel :=
  mkLabel 0 0 0 none 10 0 [0, 1] [10, 10] none 0 0 none none

/-- Label after charging 4 units at station node 1 (arrived with SOC 6). -/
def labelStation : PCCMLabel :=
  mkLabel 1 5 5 (some 1) 6 0 [5, 9] [6, 10] (some [1]) 5 4
    (some labelDepot) none

/-- Customer label ending the depot → station(4 units) → customer chain:
energy consumed since the station is 2, first-breakpoint SOC 8, SOC on
arrival at the station 6, so the intended charge amount is
2 + 8 − 6 = 4. -/
def labelCust : PCCMLabel :=
  mkLabel 2 7 7 (some 1) 6 2 [7, 11] [8, 12] (some [1]) 2 2
    (some labelStation) none

/-- C7: `get_charging_amounts` should return `[]` with no station visit and
the oldest-to-newest charge amounts otherwise — `[4.0]` on the
depot → station(4 units) → customer chain.  The empty case holds, but with
any station visit line 194 references the method `get_first_supp_pt_soc`
without calling it, so Python raises TypeError instead of returning `[4.0]`;
the boundary formula itself evaluates to 4 at the customer label. -/
theorem get_charging_amounts_type_error :
    get_charging_amounts labelDepot = .ok [] ∧
    get_charging_amounts labelCust =
      .error "TypeError: unsupported operand type(s) for +: 'float' and 'method'" ∧
    labelCust.energy_consumed_since_last_cs + get_first_supp_pt_soc labelCust
      - labelCust.soc_arr_to_last_cs = 4 := by
  refine ⟨rfl, rfl, ?_⟩
  norm_num [labelCust, mkLabel, get_first_supp_pt_soc,
    PCCMLabel.energy_consumed_since_last_cs, PCCMLabel.socs,
    PCCMLabel.soc_arr_to_last_cs, PCCMLabel.data]

/-! ### Path since last customer (C8) -/

/-- A label with a recorded charging station but no parent at all. -/
def labelC8root : PCCMLabel :=
  mkLabel 7 0 0 (some 3) 0 0 [0, 1] [1, 1] none 0 0 none none

/-- Chain bottom: a label with no charging-station visit. -/
def labelC8base : PCCMLabel :=
  mkLabel 9 0 0 none 0 0 [0, 1] [9, 9] none 0 0 none none

/-- Middle label: last visited charging station 1, parent `labelC8base`. -/
def labelC8mid : PCCMLabel :=
  mkLabel 2 0 0 (some 1) 0 0 [0, 1] [9, 9] none 0 0
    (some labelC8base) none

/-- Child label with the SAME `last_visited_cs` as its parent. -/
def labelC8child : PCCMLabel :=
  mkLabel 3 0 0 (some 1) 0 0 [0, 1] [9, 9] none 0 0
    (some labelC8mid) none

/-- Top label whose `last_visited_cs` DIFFERS from its parent's. -/
def labelC8top : PCCMLabel :=
  mkLabel 5 0 0 (some 2) 0 0 [0, 1] [9, 9] none 0 0
    (some labelC8mid) none

/-- C8 counterexample.  (i) When the walk reaches the end of the parent
chain the code raises AttributeError (it dereferences the parent before its
`is None` test), contradicting "terminating (without error) ... or the root
of the ancestor chain is reached".  (ii) The walk stops as soon as the
parent's `last_visited_cs` EQUALS the current one: on the
child → mid → base chain with unchanged station 1 it returns just `[3]`,
whereas the claim's "terminating as soon as last_visited_cs ... changes
value" would have it continue past the equal-valued parent (node 2). -/
theorem path_from_last_customer_not_as_claimed :
    get_path_from_last_customer labelC8root =
      .error "AttributeError: 'NoneType' object has no attribute 'last_visited_cs'" ∧
    labelC8child.last_visited_cs = labelC8mid.last_visited_cs ∧
    labelC8mid.last_visited_cs ≠ none ∧
    labelC8mid.parent = some labelC8base ∧
    get_path_from_last_customer labelC8child = .ok [3] := by
  exact ⟨rfl, rfl, by decide, rfl, rfl⟩

/-- C8 amended: `get_path_from_last_customer` returns `[]` when
`last_visited_cs` is absent.  Otherwise it collects the current node id and
inspects the parent: it stops successfully when the parent's
`last_visited_cs` is absent or EQUAL to the current label's; it continues
walking while the parent's value is present and different; and it raises
AttributeError when the parent chain runs out, because the loop
dereferences `curr_parent.last_visited_cs` before its `is None` test. -/
theorem path_from_last_customer_behavior :
    (∀ l : PCCMLabel, l.last_visited_cs = none →
      get_path_from_last_customer l = .ok []) ∧
    (∀ l : PCCMLabel, l.last_visited_cs ≠ none → l.parent = none →
      get_path_from_last_customer l =
        .error "AttributeError: 'NoneType' object has no attribute 'last_visited_cs'") ∧
    (∀ l p : PCCMLabel, l.last_visited_cs ≠ none → l.parent = some p →
      (p.last_visited_cs = none ∨ p.last_visited_cs = l.last_visited_cs) →
      get_path_from_last_customer l = .ok [l.node_id_for_label]) ∧
    (∀ l p : PCCMLabel, l.last_visited_cs ≠ none → l.parent = some p →
      p.last_visited_cs ≠ none → p.last_visited_cs ≠ l.last_visited_cs →
      get_path_from_last_customer l =
        (gplcLoop p).map fun rest => l.node_id_for_label :: rest) := by
  refine ⟨?_, ?_, ?_, ?_⟩
  · intro l h
    cases l with
    | mk d po =>
      unfold get_path_from_last_customer
      rw [h]
  · intro l h hp
    cases l with
    | mk d po =>
      cases po with
      | some p => exact absurd hp (by simp [PCCMLabel.parent])
      | none =>
        obtain ⟨c, hc⟩ := Option.ne_none_iff_exists'.mp h
        unfold get_path_from_last_customer
        rw [hc]
        rfl
  · intro l p h hp hcond
    cases l with
    | mk d po =>
      cases po with
      | none => exact absurd hp (by simp [PCCMLabel.parent])
      | some p' =>
        have hpp : p = p' := by
          have := hp
          simp only [PCCMLabel.parent] at this
          exact (Option.some_injective _ this).symm
        subst hpp
        obtain ⟨c, hc⟩ := Option.ne_none_iff_exists'.mp h
        unfold get_path_from_last_customer
        rw [hc]
        simp only [gplcLoop]
        rw [if_pos (show p.last_visited_cs = none ∨
          p.last_visited_cs = d.last_visited_cs from hcond)]
        rfl
  · intro l p h hp h1 h2
    cases l with
    | mk d po =>
      cases po with
      | none => exact absurd hp (by simp [PCCMLabel.parent])
      | some p' =>
        have hpp : p = p' := by
          have := hp
          simp only [PCCMLabel.parent] at this
          exact (Option.some_injective _ this).symm
        subst hpp
        obtain ⟨c, hc⟩ := Option.ne_none_iff_exists'.mp h
        unfold get_path_from_last_customer
        rw [hc]
        simp only [gplcLoop]
        rw [if_neg (show ¬ (p.last_visited_cs = none ∨
          p.last_visited_cs = d.last_visited_cs) by push_neg; exact ⟨h1, h2⟩)]
        cases hgl : gplcLoop p with
        | ok rest => rfl
        | error s => rfl

/-- Witness for C8's amended theorem: the continue-while-different step at
the concrete top → mid chain (stations 2 vs 1). -/
theorem path_from_last_customer_behavior_witness :
    get_path_from_last_customer labelC8top =
      (gplcLoop labelC8mid).map
        (fun rest => labelC8top.node_id_for_label :: rest) := by
  exact path_from_last_customer_behavior.2.2.2 labelC8top labelC8mid
    (by decide) rfl (by decide) (by decide)

/-! ### Missing precondition checks (C9) -/

/-- A label at node 1 with trip time 5. -/
def labelC9a : PCCMLabel :=
  mkLabel 1 0 5 none 0 0 [5, 6] [3, 3] (some [0]) 0 0 none none

/-- A label at a DIFFERENT node (2) with trip time 3. -/
def labelC9b : PCCMLabel :=
  mkLabel 2 0 3 none 0 0 [3, 4] [3, 3] (some [0]) 0 0 none none

/-- A label whose supporting-point times `[0, 20, 10]` are not monotonic. -/
def labelMalformed : PCCMLabel :=
  mkLabel 4 0 0 none 0 0 [0, 20, 10] [0, 5, 8] (some [1/4, 1/2]) 0 0
    none none

/-- C9 counterexample: `dominates` performs no same-node check — called on
labels at different nodes it silently returns `False` (via the trip-time
test) instead of failing with a precondition violation. -/
theorem dominates_cross_node_silent :
    labelC9a.node_id_for_label ≠ labelC9b.node_id_for_label ∧
    dominates labelC9a labelC9b = .ok false := by
  exact ⟨by decide, rfl⟩

/-- C9 amended: neither dominance nor evaluation validates its
preconditions.  Cross-node `dominates` can silently return a result
(`False` here), and `get_soc_dichotomic` on a label whose supporting-point
times are non-monotonic silently returns a value (the last SOC, since the
out-of-order final time 10 satisfies the at-or-after-last test at time 15)
rather than raising a precondition violation. -/
theorem preconditions_not_enforced :
    (labelC9a.node_id_for_label ≠ labelC9b.node_id_for_label ∧
     dominates labelC9a labelC9b = .ok false) ∧
    (¬ List.Chain' (· < ·) ([0, 20, 10] : List Rat) ∧
     labelMalformed.times = [0, 20, 10] ∧
     get_soc_dichotomic labelMalformed 15 = .ok ((8 : Rat) : WithBot Rat)) := by
  refine ⟨⟨by decide, rfl⟩, ?_, rfl, rfl⟩
  norm_num [List.chain'_cons]

end FrvcpCore
